import Mathlib

/-
Verification development for the FREUD activation-capture / sparse-autoencoder
repository. The Python source is shallowly embedded in Lean:

* tensors [bsz, seq, width] become nested lists of rationals (T3); the real
  autoencoder arithmetic is embedded over the reals with matrices on Fin types;
* stateful code (the pytorch hook recorder) becomes explicit state passing, a
  forward pass being a fold of the registered hook over the stream of submodule
  invocation events;
* fallible code (python KeyError / IndexError / torch size-mismatch errors)
  returns Except values.
-/

namespace Freud

/-! ## Tensor values

A third-order tensor of shape [bsz, seq_len, width], stored as nested lists:
batch element, then sequence position, then feature channel. Rationals stand
in for floating-point values. -/

structure T3 where
  data : List (List (List ℚ))
  deriving DecidableEq

/-- Dimension 0 of the tensor (batch size). -/
def T3.bsz (t : T3) : Nat := t.data.length

/-- Dimension 1 of the tensor (sequence length), read off the first batch
element, mirroring how a shape is carried by a rectangular tensor. -/
def T3.seqLen (t : T3) : Nat := (t.data.head?.map List.length).getD 0

/-- Dimension 2 of the tensor (feature width), read off the first row. -/
def T3.width (t : T3) : Nat := ((t.data.head?.bind List.head?).map List.length).getD 0

/-- The tensor is rectangular with shape [b, s, w]. -/
def T3.rect (t : T3) (b s w : Nat) : Prop :=
  t.data.length = b ∧ ∀ br ∈ t.data, br.length = s ∧ ∀ r ∈ br, r.length = w

instance (t : T3) (b s w : Nat) : Decidable (t.rect b s w) := by
  unfold T3.rect; infer_instance

/-- output.detach().cpu(): identity on the value level. -/
def detachCpu (t : T3) : T3 := t

/-- output_[:, :, :n] — keep only the first n feature channels. -/
def trimWidth (n : Nat) (t : T3) : T3 :=
  ⟨t.data.map (fun br => br.map (fun r => r.take n))⟩

/-- Errors raised inside a hook during a forward pass. -/
inductive HookError where
  | keyError (k : String)
  | catSizeMismatch
  deriving DecidableEq

/-- Equality of Except values is decidable componentwise; this lets concrete
runs of the embedded fallible code be checked by decide. -/
instance instDecEqExcept {ε α : Type} [DecidableEq ε] [DecidableEq α] :
    DecidableEq (Except ε α)
  | .ok a, .ok b =>
    decidable_of_iff (a = b) (by constructor <;> (intro h; first | rw [h] | injection h))
  | .ok _, .error _ => isFalse (fun h => Except.noConfusion h)
  | .error _, .ok _ => isFalse (fun h => Except.noConfusion h)
  | .error e, .error f =>
    decidable_of_iff (e = f) (by constructor <;> (intro h; first | rw [h] | injection h))

/-- torch.cat((a, b), dim=1): concatenation along the sequence axis.
torch requires the sizes of all other dimensions to agree, else it raises a
RuntimeError (modelled as catSizeMismatch). -/
def torchCat1 (a b : T3) : Except HookError T3 :=
  if a.bsz = b.bsz ∧ a.width = b.width then
    .ok ⟨List.zipWith (fun x y => x ++ y) a.data b.data⟩
  else .error .catSizeMismatch

/-! ## The activation mapping

self.activations is a python dict from submodule name to tensor; python dicts
keep insertion order and have unique keys, so an association list updated in
place models them exactly. -/

/-- The accumulated activation mapping of one recorder. -/
abbrev Acts := List (String × T3)

/-- self.activations[k] lookup (None when the key is absent). -/
def dictGet (k : String) (d : Acts) : Option T3 :=
  (d.find? (fun e => e.1 == k)).map (fun e => e.2)

/-- self.activations[k] = v: replace in place, or append a fresh key. -/
def dictSet (k : String) (v : T3) : Acts → Acts
  | [] => [(k, v)]
  | e :: es => if e.1 == k then (k, v) :: es else e :: dictSet k v es

/-- del self.activations[k] on a key known to be present. -/
def dictDel (k : String) : Acts → Acts
  | [] => []
  | e :: es => if e.1 == k then es else e :: dictDel k es

/-- Substring test: python's "decoder" in name. -/
def hasSubstr (needle hay : String) : Bool :=
  (List.range (hay.toList.length + 1)).any
    (fun i => needle.toList.isPrefixOf (hay.toList.drop i))

/-! ## Hooks

A hook observes one submodule invocation: it receives the submodule name and
the output tensor and updates the activation mapping. -/

/-- The caching hook of the abstract base recorder
(BaseActivationModule._get_caching_hook): store the detached output under the
submodule name, overwriting any previous entry. -/
def baseCachingHook (name : String) (output : T3) (acts : Acts) : Except HookError Acts :=
  .ok (dictSet name (detachCpu output) acts)

/-- The whisper-specific caching hook
(WhisperActivationCache._get_caching_hook). For a decoder-side submodule whose
output has sequence length > 1 the source runs
del self.activations[name]; python's del raises KeyError when the key is
absent. Otherwise: a first capture is trimmed to the first 50 feature
channels; a repeat capture is concatenated onto the accumulated tensor along
the sequence axis. -/
def whisperCachingHook (name : String) (output : T3) (acts : Acts) : Except HookError Acts :=
  if hasSubstr "decoder" name ∧ output.seqLen > 1 then
    match dictGet name acts with
    | some _ => .ok (dictDel name acts)
    | none => .error (.keyError name)
  else
    match dictGet name acts with
    | some prev =>
      match torchCat1 prev (detachCpu output) with
      | .ok t => .ok (dictSet name t acts)
      | .error e => .error e
    | none => .ok (dictSet name (trimWidth 50 (detachCpu output)) acts)

/-! ## natsort.natsorted

External library used to impose a consistent order on the matched submodule
names: strings are compared by alternating runs of non-digit characters and
numerically-valued digit runs. -/

/-- Numeric value of a digit run. -/
def digitsVal (cs : List Char) : Nat :=
  cs.foldl (fun n c => n * 10 + (c.toNat - 48)) 0

/-- Split a string into natural-sort atoms: numbers for digit runs, raw
character runs otherwise. The fuel argument bounds the recursion. -/
def natChunks : Nat → List Char → List (Nat ⊕ List Char)
  | 0, _ => []
  | _, [] => []
  | fuel + 1, c :: cs =>
    if c.isDigit then
      Sum.inl (digitsVal ((c :: cs).takeWhile Char.isDigit)) ::
        natChunks fuel ((c :: cs).dropWhile Char.isDigit)
    else
      Sum.inr ((c :: cs).takeWhile (fun d => !d.isDigit)) ::
        natChunks fuel ((c :: cs).dropWhile (fun d => !d.isDigit))

/-- Natural-sort key of a string. -/
def natKey (s : String) : List (Nat ⊕ List Char) :=
  natChunks s.toList.length s.toList

/-- Lexicographic character-list comparison. -/
def charsLT : List Char → List Char → Bool
  | [], [] => false
  | [], _ :: _ => true
  | _ :: _, [] => false
  | a :: as, b :: bs => a < b || (a == b && charsLT as bs)

/-- Strict order on natural-sort atoms: numbers sort before character runs. -/
def atomLT : Nat ⊕ List Char → Nat ⊕ List Char → Bool
  | .inl n, .inl m => n < m
  | .inl _, .inr _ => true
  | .inr _, .inl _ => false
  | .inr a, .inr b => charsLT a b

/-- Lexicographic comparison of natural-sort keys. -/
def keyLE : List (Nat ⊕ List Char) → List (Nat ⊕ List Char) → Bool
  | [], _ => true
  | _ :: _, [] => false
  | a :: as, b :: bs => atomLT a b || (a == b && keyLE as bs)

/-- natsort.natsorted on a list of strings. -/
def natsorted (l : List String) : List String :=
  l.mergeSort (fun a b => keyLE (natKey a) (natKey b))

/-! ## The recorder (BaseActivationModule / WhisperActivationCache)

The recorder's mutable attributes, together with the hook-registration state of
the underlying model, form one explicit state record. Hook handles are
identified by the id counter nextId; attached lists the forward hooks
currently registered on the model's submodules (handle id, submodule name).
named submodule names are unique in a pytorch module, so at most one caching
hook is attached per submodule. -/

structure HookedState where
  step : Nat
  activations : Acts
  hooks : List Nat
  attached : List (Nat × String)
  nextId : Nat
  activations_to_cache : List String
  model_modules : List String
  deriving DecidableEq

/-- Construction-time errors. configurationError is the failure the spec
posits for an empty match set; assertionError is the only check the source
performs (assert model is not None). -/
inductive InitError where
  | assertionError
  | configurationError
  deriving DecidableEq

/-- BaseActivationModule.__init__: filter the model's submodule names by the
supplied patterns (rmatch stands for the external regex.match) and natural-sort
the matches. No check is made that the match set is nonempty. -/
def baseInit (model : Option (List String)) (rmatch : String → String → Bool)
    (activation_regex : List String) : Except InitError HookedState :=
  match model with
  | none => .error .assertionError
  | some names =>
    .ok { step := 0
          activations := []
          hooks := []
          attached := []
          nextId := 0
          activations_to_cache :=
            natsorted (names.filter (fun n => activation_regex.any (fun p => rmatch p n)))
          model_modules := names }

/-- BaseActivationModule.register_hooks: walk the model's named submodules and
attach a forward hook on each one whose name is in activations_to_cache,
remembering the handles. -/
def register_hooks (st : HookedState) : HookedState :=
  let matched := st.model_modules.filter (fun n => st.activations_to_cache.contains n)
  let ids := (List.range matched.length).map (fun i => st.nextId + i)
  { st with hooks := st.hooks ++ ids
            attached := st.attached ++ ids.zip matched
            nextId := st.nextId + matched.length }

/-- BaseActivationModule.remove_hooks: call handle.remove() on every
remembered handle, then clear the handle list. -/
def remove_hooks (st : HookedState) : HookedState :=
  { st with
      attached := st.hooks.foldl (fun a i => a.eraseP (fun e => e.1 == i)) st.attached
      hooks := [] }

/-- BaseActivationModule.reset_state: clear the activation mapping. -/
def reset_state (st : HookedState) : HookedState :=
  { st with activations := [] }

/-- One submodule invocation during the model's forward evaluation: the
submodule name and its output tensor. -/
abbrev CaptureEvent := String × T3

/-- Run the forward evaluation: each invocation of a submodule that has an
attached caching hook triggers the hook; an exception raised inside a hook
propagates out of the evaluation. -/
def runEvents (hookF : String → T3 → Acts → Except HookError Acts)
    (attached : List (Nat × String)) : List CaptureEvent → Acts → Except HookError Acts
  | [], acts => .ok acts
  | (n, out) :: evs, acts =>
    if attached.any (fun e => e.2 == n) then
      match hookF n out acts with
      | .ok acts' => runEvents hookF attached evs acts'
      | .error e => .error e
    else runEvents hookF attached evs acts

/-- BaseActivationModule.forward: zero_grad (no effect on the modelled state),
bump the step counter, register the hooks, run the model (the events are the
submodule invocations its evaluation produces), then remove the hooks. There
is no try/finally: if a hook raises, remove_hooks is never reached. Nothing
here clears the activation mapping. -/
def forwardBase (hookF : String → T3 → Acts → Except HookError Acts)
    (st : HookedState) (events : List CaptureEvent) : Except HookError HookedState :=
  let st1 := register_hooks { st with step := st.step + 1 }
  match runEvents hookF st1.attached events st1.activations with
  | .ok acts' => .ok (remove_hooks { st1 with activations := acts' })
  | .error e => .error e

/-- WhisperActivationCache.forward: the base forward driven by the
whisper-specific caching hook. -/
def whisperForward (st : HookedState) (events : List CaptureEvent) :
    Except HookError HookedState :=
  forwardBase whisperCachingHook st events

/-! ## The L1 autoencoder (src/models/l1autoencoder.py)

The float arithmetic is idealized over the reals. Shapes: the input batch x
has shape [bsz, seq, act] with act = activation_size, the tied decoder weight
W has shape [act, nd] with nd = n_dict_components (nn.Linear(nd, act) stores
its weight as an [act, nd] matrix), the encoder bias has length nd. Encode
reads x @ W + bias; decode applies the linear layer, c @ W.T. -/

/-- An input / reconstruction batch: [bsz, seq, act]. -/
abbrev Batch (bsz seq act : Nat) := Fin bsz → Fin seq → Fin act → ℝ

/-- A latent batch: [bsz, seq, nd]. -/
abbrev Latent (bsz seq nd : Nat) := Fin bsz → Fin seq → Fin nd → ℝ

/-- The L2 norm of decoder column j, i.e. of dictionary atom j. -/
noncomputable def colNorm {act nd : Nat} (W : Matrix (Fin act) (Fin nd) ℝ) (j : Fin nd) : ℝ :=
  Real.sqrt (∑ i, W i j ^ 2)

/-- nn.functional.normalize(W, dim=0): divide every column by its L2 norm.
The idealization of the library's eps clamp: in Lean, division by zero gives
zero, so an all-zero column stays all-zero, exactly as with torch's clamped
denominator. -/
noncomputable def normalizeCols {act nd : Nat} (W : Matrix (Fin act) (Fin nd) ℝ) :
    Matrix (Fin act) (Fin nd) ℝ :=
  fun i j => W i j / colNorm W j

/-- nn.ReLU. -/
noncomputable def relu (r : ℝ) : ℝ := max r 0

/-- L1AutoEncoder.encode: first overwrite the decoder weight in place with its
column-normalized form, then compute the rectified code from x @ W + bias.
The state passing is explicit: the result carries the updated weight alongside
the latent code. -/
noncomputable def encodeL1 {act nd bsz seq : Nat} (W : Matrix (Fin act) (Fin nd) ℝ)
    (bias : Fin nd → ℝ) (x : Batch bsz seq act) :
    Matrix (Fin act) (Fin nd) ℝ × Latent bsz seq nd :=
  let W' := normalizeCols W
  (W', fun p s j => relu ((∑ i, x p s i * W' i j) + bias j))

/-- L1AutoEncoder.decode: the bias-free linear layer, c @ W.T. -/
noncomputable def decodeL1 {act nd bsz seq : Nat} (W : Matrix (Fin act) (Fin nd) ℝ)
    (c : Latent bsz seq nd) : Batch bsz seq act :=
  fun p s i => ∑ j, c p s j * W i j

/-- torch.norm(c, 1, dim=2): per batch element and position, the sum of the
absolute values across the feature axis. -/
noncomputable def torchNorm1dim2 {bsz seq nd : Nat} (c : Latent bsz seq nd) :
    Fin bsz → Fin seq → ℝ :=
  fun p s => ∑ j, |c p s j|

/-- .mean() of a [bsz, seq] tensor: sum of all entries over the element
count. -/
noncomputable def torchMean2 {bsz seq : Nat} (m : Fin bsz → Fin seq → ℝ) : ℝ :=
  (∑ p, ∑ s, m p s) / (bsz * seq : ℕ)

open Classical in
/-- mse_loss(input, target, ignored_index, "mean") from the source: mask the
entries whose target equals the ignored index, square the elementwise
difference on the unmasked entries, and take the mean over those entries. -/
noncomputable def mse_loss_mean {bsz seq act : Nat} (input target : Batch bsz seq act)
    (ignored_index : ℝ) : ℝ :=
  (∑ t ∈ Finset.univ.filter
      (fun t : Fin bsz × Fin seq × Fin act => ¬ target t.1 t.2.1 t.2.2 = ignored_index),
    (input t.1 t.2.1 t.2.2 - target t.1 t.2.1 t.2.2) ^ 2) /
  (Finset.univ.filter
      (fun t : Fin bsz × Fin seq × Fin act => ¬ target t.1 t.2.1 t.2.2 = ignored_index)).card

/-- The record L1AutoEncoder.forward returns, together with the in-place
updated decoder weight. -/
structure L1ForwardOut (act nd bsz seq : Nat) where
  sae_out : Batch bsz seq act
  latent : Latent bsz seq nd
  l1_loss : ℝ
  reconstruction_loss : ℝ
  new_weight : Matrix (Fin act) (Fin nd) ℝ

/-- L1AutoEncoder.forward: encode (which renormalizes the weight in place),
reconstruct with the decoder on the updated weight, then the two losses. -/
noncomputable def forwardL1 {act nd bsz seq : Nat} (recon_alpha : ℝ)
    (W : Matrix (Fin act) (Fin nd) ℝ) (bias : Fin nd → ℝ) (x : Batch bsz seq act) :
    L1ForwardOut act nd bsz seq :=
  let e := encodeL1 W bias x
  let c := e.2
  let x_hat := decodeL1 e.1 c
  { sae_out := x_hat
    latent := c
    l1_loss := torchMean2 (torchNorm1dim2 c)
    reconstruction_loss := recon_alpha * mse_loss_mean x_hat x (-1)
    new_weight := e.1 }

/-- The spec's sparsity loss: the mean, over examples and positions, of the L1
norm of the latent code taken across the feature axis. -/
noncomputable def specSparsityLoss {bsz seq nd : Nat} (c : Latent bsz seq nd) : ℝ :=
  (1 / (bsz * seq : ℕ)) * ∑ p, ∑ s, ∑ j, |c p s j|

open Classical in
/-- The spec's reconstruction error: the mean squared error between
reconstruction and input computed only over the positions where the target
does not equal the ignore sentinel. Written independently of the source's
mse_loss: an indicator sum over all positions over the count of kept
positions. -/
noncomputable def specMaskedMSE {bsz seq act : Nat} (recon target : Batch bsz seq act)
    (sentinel : ℝ) : ℝ :=
  (∑ t : Fin bsz × Fin seq × Fin act,
      if target t.1 t.2.1 t.2.2 = sentinel then 0
      else (recon t.1 t.2.1 t.2.2 - target t.1 t.2.1 t.2.2) ^ 2) /
  (Finset.univ.filter
      (fun t : Fin bsz × Fin seq × Fin act => target t.1 t.2.1 t.2.2 ≠ sentinel)).card

/-! ## Checkpoint loading (src/dataset/activations.py, init_sae_from_checkpoint) -/

/-- L1AutoEncoderConfig (src/models/config.py is outside src/; its fields are
the ones the source reads: cfg.expansion_factor, cfg.n_dict_components,
cfg.recon_alpha). -/
structure L1AutoEncoderConfig where
  expansion_factor : Nat
  n_dict_components : Option Nat
  recon_alpha : ℚ
  deriving DecidableEq

/-- Modelled from the spec: TopKAutoEncoder and its config are not under src/;
the spec records a variant-specific hyperparameter set containing the
sparsity parameter K next to the shared dictionary-size data. -/
structure TopKAutoEncoderConfig where
  k : Nat
  expansion_factor : Nat
  n_dict_components : Option Nat
  deriving DecidableEq

/-- Modelled from the spec: get_n_dict_components (src/utils/models.py is not
under src/) — n_dict_components is derived from
activation_size × expansion_factor unless an explicit override is
configured. -/
def get_n_dict_components (activation_size expansion_factor : Nat)
    (n_dict_components : Option Nat) : Nat :=
  n_dict_components.getD (activation_size * expansion_factor)

/-- The raw autoencoder_config dict stored in a checkpoint's hparams, from
which either variant's from_dict reads its fields. -/
structure AutoencoderConfigDict where
  expansion_factor : Nat
  n_dict_components : Option Nat
  recon_alpha : ℚ
  k : Nat
  deriving DecidableEq

/-- L1AutoEncoderConfig.from_dict. -/
def l1ConfigFromDict (d : AutoencoderConfigDict) : L1AutoEncoderConfig :=
  ⟨d.expansion_factor, d.n_dict_components, d.recon_alpha⟩

/-- TopKAutoEncoderConfig.from_dict. -/
def topkConfigFromDict (d : AutoencoderConfigDict) : TopKAutoEncoderConfig :=
  ⟨d.k, d.expansion_factor, d.n_dict_components⟩

/-- A saved state dict: the tied decoder weight as an
[activation_size, n_dict_components] list of rows, and the encoder bias
parameter when present. -/
structure SAEStateDict where
  decoder_weight : List (List ℚ)
  encoder_bias : Option (List ℚ)
  deriving DecidableEq

/-- The checkpoint record torch.load yields: the hparams header and the model
state dict. -/
structure Checkpoint where
  activation_size : Nat
  autoencoder_variant : String
  autoencoder_config : AutoencoderConfigDict
  model : SAEStateDict
  deriving DecidableEq

/-- The constructed autoencoder: the exact variant, the hyperparameters it was
constructed from, and the loaded weights. -/
inductive SAE where
  | l1 (activation_size : Nat) (cfg : L1AutoEncoderConfig) (sd : SAEStateDict)
  | topk (activation_size : Nat) (cfg : TopKAutoEncoderConfig) (sd : SAEStateDict)
  deriving DecidableEq

/-- Loading errors. runtimeShapeMismatch is torch's generic RuntimeError from
load_state_dict on a size disagreement; incompatibleCheckpoint is the failure
mode the spec posits, which nothing in the source ever raises. -/
inductive LoadError where
  | runtimeShapeMismatch
  | incompatibleCheckpoint
  deriving DecidableEq

/-- load_state_dict shape check for an L1AutoEncoder of the given sizes:
decoder.weight must be [act, nd] and encoder_bias must be a length-nd
vector. -/
def sdMatchesL1 (act nd : Nat) (sd : SAEStateDict) : Bool :=
  sd.decoder_weight.length == act &&
    sd.decoder_weight.all (fun r => r.length == nd) &&
    (match sd.encoder_bias with
     | some bv => bv.length == nd
     | none => false)

/-- Modelled from the spec: the TopK variant shares the single tied weight
matrix of shape [activation_size, n_dict_components]; loading its state dict
checks that shape. -/
def sdMatchesTopK (act nd : Nat) (sd : SAEStateDict) : Bool :=
  sd.decoder_weight.length == act &&
    sd.decoder_weight.all (fun r => r.length == nd)

/-- init_sae_from_checkpoint: read activation_size from the header, branch on
the variant tag — the string "l1" selects L1AutoEncoder, anything else
selects TopKAutoEncoder — construct the model from the header's config dict,
then load the checkpoint's weights into it. -/
def init_sae_from_checkpoint (ck : Checkpoint) : Except LoadError SAE :=
  let act := ck.activation_size
  if ck.autoencoder_variant == "l1" then
    let cfg := l1ConfigFromDict ck.autoencoder_config
    let nd := get_n_dict_components act cfg.expansion_factor cfg.n_dict_components
    if sdMatchesL1 act nd ck.model then .ok (.l1 act cfg ck.model)
    else .error .runtimeShapeMismatch
  else
    let cfg := topkConfigFromDict ck.autoencoder_config
    let nd := get_n_dict_components act cfg.expansion_factor cfg.n_dict_components
    if sdMatchesTopK act nd ck.model then .ok (.topk act cfg ck.model)
    else .error .runtimeShapeMismatch

/-! ## The precomputed, memory-mapped activation store
(src/dataset/activations.py, MemoryMappedActivationsDataset) -/

/-- A numpy/torch tensor as the store sees it: a flat value buffer plus the
shape it is viewed at (reshape is a view; the buffer is untouched). -/
structure NpTensor where
  shape : List Nat
  data : List ℚ
  deriving DecidableEq

/-- tensor_data.reshape(tensor_shape): succeeds exactly when the element count
matches the shape's product, and never changes the flat data. -/
def npReshape (row : List ℚ) (shape : List Nat) : Option NpTensor :=
  if row.length = shape.prod then some ⟨shape, row⟩ else none

/-- The sidecar metadata record: ordered file identifiers and the parallel
list of original tensor shapes. -/
structure ActivationsMetadata where
  filenames : List String
  tensor_shapes : List (List Nat)
  deriving DecidableEq

/-- The constructed dataset: (possibly truncated) metadata, the (possibly
truncated) row-indexable blob, and the probe of the first recorded shape. -/
structure MMDataset where
  metadata : ActivationsMetadata
  mmap : List (List ℚ)
  activation_shape : List Nat
  deriving DecidableEq

/-- Python-level data-access failures. -/
inductive DataError where
  | indexError
  | reshapeError
  deriving DecidableEq

/-- MemoryMappedActivationsDataset.__init__: when a subset size is given,
truncate the filename list, the shape list and the memory-mapped blob to its
first subset_size rows; then read activation_shape from
metadata.tensor_shapes[0], which raises an IndexError when that list is
empty. -/
def mmDatasetInit (metadata : ActivationsMetadata) (mmap : List (List ℚ))
    (subset_size : Option Nat) : Except DataError MMDataset :=
  let md : ActivationsMetadata :=
    match subset_size with
    | some k => ⟨metadata.filenames.take k, metadata.tensor_shapes.take k⟩
    | none => metadata
  let mm : List (List ℚ) :=
    match subset_size with
    | some k => mmap.take k
    | none => mmap
  match md.tensor_shapes.head? with
  | none => .error .indexError
  | some sh => .ok ⟨md, mm, sh⟩

/-- MemoryMappedActivationsDataset.__len__. -/
def mmDatasetLen (ds : MMDataset) : Nat := ds.metadata.filenames.length

/-- MemoryMappedActivationsDataset.__getitem__: look up the filename and the
recorded shape of manifest entry idx, take row idx of the blob, reshape the
flat row to the recorded shape, and return the tensor paired with the
filename. -/
def mmGetItem (ds : MMDataset) (idx : Nat) : Except DataError (NpTensor × String) :=
  match ds.metadata.filenames[idx]?, ds.metadata.tensor_shapes[idx]?, ds.mmap[idx]? with
  | some fn, some sh, some row =>
    match npReshape row sh with
    | some t => .ok (t, fn)
    | none => .error .reshapeError
  | _, _, _ => .error .indexError

/-! ## Concrete example values used in counterexamples and witnesses -/

/-- A decoder-side submodule name. -/
def exDecName : String := "decoder.blocks.0.mlp.fc1"

/-- An encoder-side submodule name. -/
def exEncName : String := "encoder.blocks.0.mlp.fc1"

/-- A [1, 5, 1] tensor: one example, five sequence positions. -/
def exT5 : T3 := ⟨[[[1], [2], [3], [4], [5]]]⟩

/-- A [1, 1, 1] tensor. -/
def exT1a : T3 := ⟨[[[1]]]⟩

/-- A second [1, 1, 1] tensor. -/
def exT1b : T3 := ⟨[[[2]]]⟩

/-- A third [1, 1, 1] tensor. -/
def exT1c : T3 := ⟨[[[3]]]⟩

/-- A [1, 1, 60] tensor: feature width above the 50-channel trim. -/
def exWide1 : T3 := ⟨[[List.replicate 60 1]]⟩

/-- Another [1, 1, 60] tensor. -/
def exWide2 : T3 := ⟨[[List.replicate 60 2]]⟩

/-- A recorder freshly configured on the decoder submodule. -/
def exHookedReady : HookedState :=
  ⟨0, [], [], [], 0, [exDecName], [exDecName]⟩

/-- A recorder that already holds an activation from an earlier pass. -/
def exStaleState : HookedState :=
  ⟨1, [(exEncName, exT1a)], [], [], 0, [exEncName], [exEncName]⟩

/-- The state exStaleState reaches after one further forward pass that
captures nothing. -/
def exStaleAfter : HookedState :=
  ⟨2, [(exEncName, exT1a)], [], [], 1, [exEncName], [exEncName]⟩

/-- Submodule names of a model with no mlp blocks. -/
def exModelNames : List String := ["encoder.conv1", "encoder.conv2"]

/-- The recorder's name patterns. -/
def exPatterns : List String := [".*blocks.*mlp.*"]

/-- A concrete matcher standing in for regex.match (literal comparison). -/
def literalMatch (p n : String) : Bool := p == n

/-- A checkpoint whose header says activation_size 2 with expansion factor 1
(so a [2, 2] decoder) but whose stored decoder weight is [1, 1]. -/
def exBadCkpt : Checkpoint :=
  { activation_size := 2
    autoencoder_variant := "l1"
    autoencoder_config := ⟨1, none, 1, 0⟩
    model := ⟨[[1]], some [0, 0]⟩ }

/-- A well-formed L1 checkpoint: activation_size 1, expansion factor 1,
decoder weight [1, 1], bias of length 1. -/
def exGoodCkpt : Checkpoint :=
  { activation_size := 1
    autoencoder_variant := "l1"
    autoencoder_config := ⟨1, none, 1, 32⟩
    model := ⟨[[5]], some [0]⟩ }

/-- Twelve flattened values, the blob row for a [3, 4] tensor. -/
def exRow12 : List ℚ := [0, 1, 2, 3, 4, 5, 6, 7, 8, 9, 10, 11]

/-- A one-file manifest recording shape [3, 4] for file a.flac. -/
def exMetadata : ActivationsMetadata := ⟨["a.flac"], [[3, 4]]⟩

/-- The store built from exMetadata and the single row exRow12. -/
def exStore : MMDataset := ⟨exMetadata, [exRow12], [3, 4]⟩

/-- A constant-zero 1 × 1 decoder weight. -/
def exW0 : Matrix (Fin 1) (Fin 1) ℝ := fun _ _ => 0

/-- A constant-one 1 × 1 decoder weight. -/
def exW1 : Matrix (Fin 1) (Fin 1) ℝ := fun _ _ => 1

/-- A zero encoder bias. -/
def exBias0 : Fin 1 → ℝ := fun _ => 0

/-- A zero [1, 1, 1] input batch. -/
def exX0 : Batch 1 1 1 := fun _ _ _ => 0

/-! ## Theorems -/

/-- Claim C3 (code_bug): a sequence-length-5 capture on a decoder submodule
that is the first invocation of that submodule in the pass does not silently
discard — the hook executes del on an absent key and raises KeyError, and the
whole forward pass aborts with that error. -/
theorem decoder_discard_first_call_raises_keyerror :
    whisperCachingHook exDecName exT5 [] = .error (.keyError exDecName)
    ∧ whisperForward exHookedReady [(exDecName, exT5)] = .error (.keyError exDecName) := by
  constructor
  · decide
  · decide

/-- Claim C4 (counterexample): a recorder configured with patterns that match
no submodule name of the model is constructed successfully with an empty
capture set; no ConfigurationError is raised. -/
theorem no_match_construction_succeeds :
    exModelNames.all (fun n => exPatterns.all (fun p => !literalMatch p n)) = true
    ∧ baseInit (some exModelNames) literalMatch exPatterns =
        .ok { step := 0, activations := [], hooks := [], attached := [], nextId := 0,
              activations_to_cache := [], model_modules := exModelNames }
    ∧ baseInit (some exModelNames) literalMatch exPatterns ≠
        .error .configurationError := by
  refine ⟨by decide, ?_, ?_⟩
  · have hfil : exModelNames.filter
        (fun n => exPatterns.any (fun p => literalMatch p n)) = [] := by decide
    simp [baseInit, natsorted, hfil, List.mergeSort_nil]
  · have hfil : exModelNames.filter
        (fun n => exPatterns.any (fun p => literalMatch p n)) = [] := by decide
    simp [baseInit, natsorted, hfil, List.mergeSort_nil]

/-- Claim C4 (amended): construction never fails on an empty match set — when
no submodule name matches any pattern it succeeds with an empty capture list;
the only construction-time check is the assert on a missing model. -/
theorem base_init_no_match_empty_capture (names : List String)
    (rmatch : String → String → Bool) (patterns : List String)
    (h : names.all (fun n => patterns.all (fun p => !rmatch p n)) = true) :
    baseInit (some names) rmatch patterns =
      .ok { step := 0, activations := [], hooks := [], attached := [], nextId := 0,
            activations_to_cache := [], model_modules := names }
    ∧ baseInit none rmatch patterns = .error .assertionError := by
  have hfil : names.filter (fun n => patterns.any (fun p => rmatch p n)) = [] := by
    rw [List.filter_eq_nil_iff]
    intro a ha
    simp only [List.all_eq_true, Bool.not_eq_true'] at h
    have h2 := h a ha
    simp only [List.any_eq_true, not_exists, not_and]
    intro p hp
    rw [h2 p hp]
    simp
  constructor
  · simp [baseInit, natsorted, hfil, List.mergeSort_nil]
  · rfl

/-- Claim C4 (witness for the amended theorem). -/
theorem base_init_no_match_empty_capture_witness :
    baseInit (some exModelNames) literalMatch exPatterns =
      .ok { step := 0, activations := [], hooks := [], attached := [], nextId := 0,
            activations_to_cache := [], model_modules := exModelNames }
    ∧ baseInit none literalMatch exPatterns = .error .assertionError :=
  base_init_no_match_empty_capture exModelNames literalMatch exPatterns (by decide)

/-- Claim C7 (counterexample): a checkpoint whose recorded architecture
metadata (activation_size 2, expansion factor 1, so a [2, 2] decoder)
disagrees with the stored weight shapes fails with torch's generic state-dict
shape error, not with the IncompatibleCheckpointError the claim requires;
that error is never produced by the loader. -/
theorem incompatible_checkpoint_generic_error :
    init_sae_from_checkpoint exBadCkpt = .error .runtimeShapeMismatch
    ∧ LoadError.runtimeShapeMismatch ≠ LoadError.incompatibleCheckpoint := by
  constructor
  · decide
  · decide

/-- Claim C7 (amended): constructing from a saved checkpoint recovers, before
any weights are loaded, the variant selected by the header tag — the string
l1 yields the L1 variant and any other tag yields the TopK variant — and the
hyperparameters recorded in the header; on success the loaded weights are the
checkpoint's. The loader takes no construction parameters besides the
checkpoint itself, so no compatibility check against requested parameters
exists and no IncompatibleCheckpointError is ever raised. -/
theorem init_sae_recovers_header (ck : Checkpoint) (m : SAE)
    (h : init_sae_from_checkpoint ck = .ok m) :
    (ck.autoencoder_variant = "l1" →
      m = .l1 ck.activation_size (l1ConfigFromDict ck.autoencoder_config) ck.model)
    ∧ (ck.autoencoder_variant ≠ "l1" →
      m = .topk ck.activation_size (topkConfigFromDict ck.autoencoder_config) ck.model) := by
  unfold init_sae_from_checkpoint at h
  by_cases hv : ck.autoencoder_variant = "l1"
  · refine ⟨fun _ => ?_, fun hne => absurd hv hne⟩
    rw [hv] at h
    simp only [beq_self_eq_true, if_true] at h
    split at h
    · exact ((Except.ok.injEq _ _).mp h).symm
    · exact Except.noConfusion h
  · refine ⟨fun heq => absurd heq hv, fun _ => ?_⟩
    have hbeq : (ck.autoencoder_variant == "l1") = false := beq_eq_false_iff_ne.mpr hv
    simp only [hbeq, Bool.false_eq_true, if_false] at h
    split at h
    · exact ((Except.ok.injEq _ _).mp h).symm
    · exact Except.noConfusion h

/-- Claim C7 (witness): the amended theorem applied to a concrete well-formed
L1 checkpoint. -/
theorem init_sae_recovers_header_witness :
    SAE.l1 1 ⟨1, none, 1⟩ ⟨[[5]], some [0]⟩ =
      SAE.l1 exGoodCkpt.activation_size (l1ConfigFromDict exGoodCkpt.autoencoder_config)
        exGoodCkpt.model :=
  (init_sae_recovers_header exGoodCkpt (SAE.l1 1 ⟨1, none, 1⟩ ⟨[[5]], some [0]⟩)
    (by decide)).1 rfl

/-- Claim C8: reading item idx of the precomputed store returns blob row idx
reshaped to the shape recorded in manifest entry idx, paired with the file
identifier of entry idx; the flat values are returned bit-identically. -/
theorem mm_getitem_roundtrip (ds : MMDataset) (idx : Nat) (fn : String)
    (sh : List Nat) (row : List ℚ)
    (hfn : ds.metadata.filenames[idx]? = some fn)
    (hsh : ds.metadata.tensor_shapes[idx]? = some sh)
    (hrow : ds.mmap[idx]? = some row)
    (hlen : row.length = sh.prod) :
    mmGetItem ds idx = .ok (⟨sh, row⟩, fn) := by
  unfold mmGetItem
  rw [hfn, hsh, hrow]
  simp [npReshape, hlen]

/-- Claim C8 (witness): the spec's round-trip test — a [3, 4] row written for
file a.flac reads back with shape [3, 4] and bit-identical values. -/
theorem mm_getitem_roundtrip_witness :
    mmGetItem exStore 0 = .ok (⟨[3, 4], exRow12⟩, "a.flac") :=
  mm_getitem_roundtrip exStore 0 "a.flac" [3, 4] exRow12 rfl rfl rfl (by decide)

/-- Claim C10 (counterexample): with subset_size 0 on a one-file corpus the
claimed dataset of length min 0 1 = 0 never materializes — construction
raises an IndexError reading tensor_shapes[0] for the activation-shape
probe. -/
theorem mm_subset_zero_raises :
    mmDatasetInit exMetadata [exRow12] (some 0) = .error .indexError
    ∧ exMetadata.filenames.length = 1 := by
  constructor
  · decide
  · decide

/-- Claim C10 (amended): when a subset_size is given and construction
succeeds, the file-identifier list, the shape list and the blob are all
truncated to the same first subset_size rows, the invariant that manifest
length equals blob row count is preserved, and the dataset's length is the
minimum of subset_size and the original corpus size. Construction fails with
an IndexError when the truncated manifest is empty (subset_size 0 or an empty
corpus). -/
theorem mm_subset_truncation (metadata : ActivationsMetadata) (mmap : List (List ℚ))
    (k : Nat) (ds : MMDataset)
    (hlen1 : metadata.filenames.length = metadata.tensor_shapes.length)
    (hlen2 : metadata.tensor_shapes.length = mmap.length)
    (hok : mmDatasetInit metadata mmap (some k) = .ok ds) :
    ds.metadata.filenames = metadata.filenames.take k
    ∧ ds.metadata.tensor_shapes = metadata.tensor_shapes.take k
    ∧ ds.mmap = mmap.take k
    ∧ ds.metadata.filenames.length = ds.metadata.tensor_shapes.length
    ∧ ds.metadata.tensor_shapes.length = ds.mmap.length
    ∧ mmDatasetLen ds = min k metadata.filenames.length := by
  simp only [mmDatasetInit] at hok
  cases hhead : (metadata.tensor_shapes.take k).head? with
  | none =>
    rw [hhead] at hok
    exact Except.noConfusion hok
  | some sh =>
    rw [hhead] at hok
    have hds := (Except.ok.injEq _ _).mp hok
    subst hds
    refine ⟨rfl, rfl, rfl, ?_, ?_, ?_⟩
    · simp [List.length_take, hlen1]
    · simp [List.length_take, hlen2]
    · simp [mmDatasetLen, List.length_take]

/-! Helper lemmas: the hooks touch only their own submodule's dict key. -/

theorem dictGet_cons (k' : String) (e : String × T3) (d : Acts) :
    dictGet k' (e :: d) = if e.1 == k' then some e.2 else dictGet k' d := by
  unfold dictGet
  cases he : (e.1 == k') with
  | true => simp [List.find?_cons, he]
  | false => simp [List.find?_cons, he]

theorem dictGet_dictSet_ne (k k' : String) (v : T3) (d : Acts) (h : k' ≠ k) :
    dictGet k' (dictSet k v d) = dictGet k' d := by
  have hkk : ((k, v).1 == k') = false := beq_eq_false_iff_ne.mpr (fun hkk => h hkk.symm)
  induction d with
  | nil =>
    show dictGet k' [(k, v)] = dictGet k' []
    rw [dictGet_cons, hkk]
    simp
  | cons e es ih =>
    by_cases he : e.1 = k
    · simp only [dictSet, he, beq_self_eq_true, if_true]
      rw [dictGet_cons, dictGet_cons, hkk]
      have he' : (e.1 == k') = false := by
        rw [beq_eq_false_iff_ne, he]
        exact fun hkk2 => h hkk2.symm
      rw [he']
      simp
    · have heb : (e.1 == k) = false := beq_eq_false_iff_ne.mpr he
      simp only [dictSet, heb, Bool.false_eq_true, if_false]
      rw [dictGet_cons, dictGet_cons, ih]

theorem dictGet_dictDel_ne (k k' : String) (d : Acts) (h : k' ≠ k) :
    dictGet k' (dictDel k d) = dictGet k' d := by
  induction d with
  | nil => rfl
  | cons e es ih =>
    by_cases he : e.1 = k
    · simp only [dictDel, he, beq_self_eq_true, if_true]
      rw [dictGet_cons]
      have he' : (e.1 == k') = false := by
        rw [beq_eq_false_iff_ne, he]
        exact fun hkk2 => h hkk2.symm
      rw [he']
      simp
    · have heb : (e.1 == k) = false := beq_eq_false_iff_ne.mpr he
      simp only [dictDel, heb, Bool.false_eq_true, if_false]
      rw [dictGet_cons, dictGet_cons, ih]

/-- A successful run of the whisper caching hook for submodule n leaves every
other submodule's entry untouched. -/
theorem whisperHook_preserves_other_keys (n : String) (out : T3) (acts acts' : Acts)
    (h : whisperCachingHook n out acts = .ok acts') (k : String) (hk : k ≠ n) :
    dictGet k acts' = dictGet k acts := by
  unfold whisperCachingHook at h
  split at h
  · split at h
    · have := (Except.ok.injEq _ _).mp h
      subst this
      exact dictGet_dictDel_ne n k acts hk
    · exact Except.noConfusion h
  · split at h
    · rename_i prev hfind
      split at h
      · rename_i t hcat
        have := (Except.ok.injEq _ _).mp h
        subst this
        exact dictGet_dictSet_ne n k t acts hk
      · exact Except.noConfusion h
    · have := (Except.ok.injEq _ _).mp h
      subst this
      exact dictGet_dictSet_ne n k _ acts hk

/-- A successful forward evaluation leaves the entries of submodules that were
never invoked in this pass untouched. -/
theorem runEvents_preserves_untouched (att : List (Nat × String))
    (evs : List CaptureEvent) (acts acts' : Acts) (k : String)
    (h : runEvents whisperCachingHook att evs acts = .ok acts')
    (hk : evs.all (fun ev => ev.1 != k) = true) :
    dictGet k acts' = dictGet k acts := by
  induction evs generalizing acts with
  | nil =>
    simp only [runEvents] at h
    rw [(Except.ok.injEq _ _).mp h]
  | cons ev evs ih =>
    obtain ⟨n, out⟩ := ev
    simp only [List.all_cons, Bool.and_eq_true, bne_iff_ne] at hk
    obtain ⟨hkn, hkevs⟩ := hk
    have hkall : evs.all (fun ev => ev.1 != k) = true := by
      simpa [List.all_eq_true] using hkevs
    simp only [runEvents] at h
    split at h
    · split at h
      · rename_i acts1 hhook
        have h1 := ih acts1 h hkall
        rw [h1]
        exact whisperHook_preserves_other_keys n out acts acts1 hhook k (fun he => hkn he.symm)
      · exact Except.noConfusion h
    · exact ih acts h hkall

/-- Claim C2 (counterexample): a forward pass that captures nothing does not
clear the mapping — the stale entry recorded by an earlier pass is still
present afterwards, so the activations mapping does not contain only tensors
captured during that single pass. -/
theorem forward_keeps_stale_entry :
    whisperForward exStaleState [] = .ok exStaleAfter
    ∧ exStaleAfter.activations = [(exEncName, exT1a)]
    ∧ exStaleAfter.activations ≠ [] := by
  refine ⟨by decide, by decide, by decide⟩

/-- Claim C2 (amended): the recorder's forward does not reset the activation
mapping at entry. An entry left by an earlier pass whose submodule is not
invoked in the current pass survives the current forward call unchanged;
clearing the mapping happens only through an explicit reset_state call. -/
theorem forward_no_autoreset (st : HookedState) (events : List CaptureEvent)
    (st' : HookedState) (k : String) (v : T3)
    (hok : whisperForward st events = .ok st')
    (hstale : dictGet k st.activations = some v)
    (huntouched : events.all (fun ev => ev.1 != k) = true) :
    dictGet k st'.activations = some v
    ∧ (reset_state st).activations = [] := by
  refine ⟨?_, rfl⟩
  simp only [whisperForward, forwardBase] at hok
  split at hok
  · rename_i acts' hrun
    have hst' := (Except.ok.injEq _ _).mp hok
    subst hst'
    show dictGet k acts' = some v
    exact (runEvents_preserves_untouched _ events st.activations acts' k hrun
      huntouched).trans hstale
  · exact Except.noConfusion hok

/-- Claim C2 (witness for the amended theorem). -/
theorem forward_no_autoreset_witness :
    dictGet exEncName exStaleAfter.activations = some exT1a
    ∧ (reset_state exStaleState).activations = [] :=
  forward_no_autoreset exStaleState [] exStaleAfter exEncName exT1a
    (by decide) (by decide) (by decide)

/-! Helper lemma for hook-handle accounting: removing exactly the freshly
registered handles restores the previously attached set. -/

theorem foldl_eraseP_fresh (names : List String) : ∀ (n : Nat) (old : List (Nat × String)),
    (∀ e ∈ old, e.1 < n) →
    ((List.range names.length).map (fun i => n + i)).foldl
        (fun a i => a.eraseP (fun e => e.1 == i))
        (old ++ ((List.range names.length).map (fun i => n + i)).zip names) = old := by
  induction names with
  | nil => intro n old hold; simp
  | cons x xs ih =>
    intro n old hold
    have hids : (List.range (xs.length + 1)).map (fun i => n + i)
        = n :: (List.range xs.length).map (fun i => (n + 1) + i) := by
      rw [List.range_succ_eq_map]
      simp only [List.map_cons, Nat.add_zero, List.map_map]
      congr 1
      apply List.map_congr_left
      intro a ha
      simp [Function.comp]
      omega
    simp only [List.length_cons, hids, List.zip_cons_cons, List.foldl_cons]
    have herase : ((old ++ (n, x) :: ((List.range xs.length).map
        (fun i => (n + 1) + i)).zip xs).eraseP (fun e => e.1 == n))
        = old ++ ((List.range xs.length).map (fun i => (n + 1) + i)).zip xs := by
      rw [List.eraseP_append_right]
      · congr 1
        rw [List.eraseP_cons_of_pos]
        simp
      · intro b hb
        simp only [beq_iff_eq]
        exact Nat.ne_of_lt (hold b hb)
    rw [herase]
    exact ih (n + 1) old (fun e he => Nat.lt_succ_of_lt (hold e he))

/-- Claim C9: a forward call that returns normally removes every hook it
registered — the recorder's handle list is empty afterwards and the model's
attached-hook set is exactly what it was before the call, for any hook
function. The hypotheses are the state invariants forward re-establishes:
the handle list is empty between passes and every attached handle id predates
the id counter. -/
theorem forward_detaches_all_hooks (hookF : String → T3 → Acts → Except HookError Acts)
    (st : HookedState) (events : List CaptureEvent) (st' : HookedState)
    (hhooks : st.hooks = [])
    (hbound : ∀ e ∈ st.attached, e.1 < st.nextId)
    (hok : forwardBase hookF st events = .ok st') :
    st'.hooks = [] ∧ st'.attached = st.attached := by
  simp only [forwardBase] at hok
  split at hok
  · rename_i acts' hrun
    have hst' := (Except.ok.injEq _ _).mp hok
    subst hst'
    constructor
    · rfl
    · show (register_hooks { st with step := st.step + 1 }).hooks.foldl
          (fun a i => a.eraseP (fun e => e.1 == i))
          (register_hooks { st with step := st.step + 1 }).attached = st.attached
      simp only [register_hooks, hhooks, List.nil_append]
      exact foldl_eraseP_fresh _ st.nextId st.attached hbound
  · exact Except.noConfusion hok

/-- Claim C9 (witness): the detach theorem applied to a concrete freshly
configured recorder running a pass with one capture. -/
theorem forward_detaches_all_hooks_witness :
    (⟨1, [(exDecName, trimWidth 50 exT1a)], [], [], 1, [exDecName], [exDecName]⟩
        : HookedState).hooks = []
    ∧ (⟨1, [(exDecName, trimWidth 50 exT1a)], [], [], 1, [exDecName], [exDecName]⟩
        : HookedState).attached = exHookedReady.attached :=
  forward_detaches_all_hooks whisperCachingHook exHookedReady [(exDecName, exT1a)]
    ⟨1, [(exDecName, trimWidth 50 exT1a)], [], [], 1, [exDecName], [exDecName]⟩
    rfl (by simp [exHookedReady]) (by decide)

/-! Helper lemmas about rectangular tensors, trimming and concatenation. -/

theorem rect_bsz {t : T3} {b s w : Nat} (h : t.rect b s w) : t.bsz = b := h.1

theorem rect_seqLen {t : T3} {b s w : Nat} (h : t.rect b s w) (hb : 1 ≤ b) :
    t.seqLen = s := by
  obtain ⟨hlen, hall⟩ := h
  cases hd : t.data with
  | nil => rw [hd] at hlen; simp at hlen; omega
  | cons br rest =>
    have hbr := hall br (by rw [hd]; exact List.mem_cons_self _ _)
    simp [T3.seqLen, hd, hbr.1]

theorem rect_width {t : T3} {b s w : Nat} (h : t.rect b s w) (hb : 1 ≤ b)
    (hs : 1 ≤ s) : t.width = w := by
  obtain ⟨hlen, hall⟩ := h
  cases hd : t.data with
  | nil => rw [hd] at hlen; simp at hlen; omega
  | cons br rest =>
    have hbr := hall br (by rw [hd]; exact List.mem_cons_self _ _)
    cases hbr' : br with
    | nil => rw [hbr'] at hbr; simp at hbr; omega
    | cons r rs =>
      have hr := hbr.2 r (by rw [hbr']; exact List.mem_cons_self _ _)
      simp [T3.width, hd, hbr', hr]

theorem trim_map_eq {w n : Nat} (hw : w ≤ n) : ∀ l : List (List (List ℚ)),
    (∀ br ∈ l, ∀ r ∈ br, r.length = w) →
    l.map (fun br => br.map (fun r => r.take n)) = l := by
  intro l
  induction l with
  | nil => intro _; rfl
  | cons br rest ih =>
    intro hl
    simp only [List.map_cons]
    have hrow : br.map (fun r => r.take n) = br := by
      conv_rhs => rw [← List.map_id br]
      apply List.map_congr_left
      intro r hr
      exact List.take_of_length_le
        (by rw [hl br (List.mem_cons_self _ _) r hr]; exact hw)
    rw [hrow, ih (fun x hx => hl x (List.mem_cons_of_mem _ hx))]

theorem trim_eq_of_rect {t : T3} {b s w : Nat} (n : Nat) (h : t.rect b s w)
    (hw : w ≤ n) : trimWidth n t = t := by
  obtain ⟨data⟩ := t
  obtain ⟨hlen, hall⟩ := h
  simp only [trimWidth]
  congr 1
  exact trim_map_eq hw data (fun br hbr => (hall br hbr).2)

theorem rect_cat_aux {s1 s2 w : Nat} : ∀ (l1 l2 : List (List (List ℚ))),
    (∀ br ∈ l1, br.length = s1 ∧ ∀ r ∈ br, r.length = w) →
    (∀ br ∈ l2, br.length = s2 ∧ ∀ r ∈ br, r.length = w) →
    ∀ br ∈ List.zipWith (fun x y => x ++ y) l1 l2,
      br.length = s1 + s2 ∧ ∀ r ∈ br, r.length = w := by
  intro l1
  induction l1 with
  | nil => intro l2 _ _ br hbr; simp at hbr
  | cons a as ih =>
    intro l2 h1 h2 br hbr
    cases l2 with
    | nil => simp at hbr
    | cons c cs =>
      simp only [List.zipWith_cons_cons, List.mem_cons] at hbr
      rcases hbr with rfl | hbr
      · have ha := h1 a (List.mem_cons_self _ _)
        have hc := h2 c (List.mem_cons_self _ _)
        refine ⟨by rw [List.length_append, ha.1, hc.1], ?_⟩
        intro r hr
        rcases List.mem_append.mp hr with hra | hrc
        · exact ha.2 r hra
        · exact hc.2 r hrc
      · exact ih cs (fun x hx => h1 x (List.mem_cons_of_mem _ hx))
          (fun x hx => h2 x (List.mem_cons_of_mem _ hx)) br hbr

theorem rect_cat {t u : T3} {b s1 s2 w : Nat} (ht : t.rect b s1 w)
    (hu : u.rect b s2 w) :
    T3.rect ⟨List.zipWith (fun x y => x ++ y) t.data u.data⟩ b (s1 + s2) w := by
  refine ⟨?_, rect_cat_aux t.data u.data ht.2 hu.2⟩
  show (List.zipWith _ t.data u.data).length = b
  rw [List.length_zipWith, ht.1, hu.1, Nat.min_self]

theorem cat_ok {t u : T3} {b s1 s2 w : Nat} (hb : 1 ≤ b) (hs1 : 1 ≤ s1)
    (hs2 : 1 ≤ s2) (ht : t.rect b s1 w) (hu : u.rect b s2 w) :
    torchCat1 t u = .ok ⟨List.zipWith (fun x y => x ++ y) t.data u.data⟩ := by
  unfold torchCat1
  rw [if_pos]
  exact ⟨by rw [rect_bsz ht, rect_bsz hu],
    by rw [rect_width ht hb hs1, rect_width hu hb hs2]⟩

/-- First capture of a pass for a submodule with no entry yet: the hook stores
the output trimmed to the first 50 feature channels. -/
theorem whisperHook_first_capture (name : String) (t : T3) (hseq : t.seqLen ≤ 1) :
    whisperCachingHook name t [] = .ok [(name, trimWidth 50 t)] := by
  unfold whisperCachingHook
  rw [if_neg]
  · rfl
  · rintro ⟨-, hgt⟩
    omega

/-- Subsequent capture of a pass: the hook concatenates the new output onto
the accumulated tensor along the sequence axis. -/
theorem whisperHook_subsequent_capture (name : String) (prev t : T3)
    {b s1 w : Nat} (hb : 1 ≤ b) (hs1 : 1 ≤ s1)
    (hprev : prev.rect b s1 w) (ht : t.rect b 1 w) :
    whisperCachingHook name t [(name, prev)] =
      .ok [(name, ⟨List.zipWith (fun x y => x ++ y) prev.data t.data⟩)] := by
  have hseq : t.seqLen = 1 := rect_seqLen ht hb
  have hget : dictGet name [(name, prev)] = some prev := by
    simp [dictGet, List.find?_cons]
  unfold whisperCachingHook
  rw [if_neg]
  · rw [hget]
    show (match torchCat1 prev t with
      | .ok t' => Except.ok (dictSet name t' [(name, prev)])
      | .error e => .error e) = _
    rw [cat_ok hb hs1 le_rfl hprev ht]
    show Except.ok (dictSet name _ [(name, prev)]) = _
    simp [dictSet]
  · rintro ⟨-, hgt⟩
    omega

/-- Claim C5 (counterexample): with feature width 60, the first capture is
trimmed to 50 channels but the second capture is not trimmed, so the
concatenation onto the accumulated tensor fails with torch's size-mismatch
error instead of assembling the pass's captures. -/
theorem concat_width_mismatch_raises :
    runEvents whisperCachingHook [(0, exDecName)] [(exDecName, exWide1)] [] =
      .ok [(exDecName, trimWidth 50 exWide1)]
    ∧ (trimWidth 50 exWide1).width = 50
    ∧ exWide2.width = 60
    ∧ runEvents whisperCachingHook [(0, exDecName)]
        [(exDecName, exWide1), (exDecName, exWide2)] [] = .error .catSizeMismatch := by
  refine ⟨by decide, by decide, by decide, by decide⟩

/-- Claim C5 (amended): for a matched decoder submodule, the first capture of
a pass keeps only the first 50 feature channels, and — provided every capture
has feature width at most 50, so that the untrimmed follow-up captures are
size-compatible with the trimmed first one — each subsequent capture is
concatenated onto the accumulated tensor along the sequence-position axis in
invocation order: three sequence-length-1 captures assemble into a
sequence-length-3 tensor holding the three captures in original order. -/
theorem decoder_concat_assembles (name : String) (b w : Nat) (t1 t2 t3 : T3)
    (att : List (Nat × String))
    (hatt : att.any (fun e => e.2 == name) = true)
    (hb : 1 ≤ b) (hw : w ≤ 50)
    (h1 : t1.rect b 1 w) (h2 : t2.rect b 1 w) (h3 : t3.rect b 1 w) :
    (∀ (t : T3) (w' : Nat), t.rect b 1 w' →
      runEvents whisperCachingHook att [(name, t)] [] = .ok [(name, trimWidth 50 t)])
    ∧ runEvents whisperCachingHook att [(name, t1), (name, t2), (name, t3)] [] =
        .ok [(name, ⟨List.zipWith (fun x y => x ++ y)
          (List.zipWith (fun x y => x ++ y) t1.data t2.data) t3.data⟩)]
    ∧ T3.rect ⟨List.zipWith (fun x y => x ++ y)
        (List.zipWith (fun x y => x ++ y) t1.data t2.data) t3.data⟩ b 3 w := by
  have h12 : T3.rect ⟨List.zipWith (fun x y => x ++ y) t1.data t2.data⟩ b 2 w :=
    rect_cat h1 h2
  have h123 : T3.rect ⟨List.zipWith (fun x y => x ++ y)
      (List.zipWith (fun x y => x ++ y) t1.data t2.data) t3.data⟩ b 3 w :=
    rect_cat h12 h3
  refine ⟨?_, ?_, h123⟩
  · intro t w' ht
    have hseq : t.seqLen ≤ 1 := le_of_eq (rect_seqLen ht hb)
    simp only [runEvents, hatt, if_true, whisperHook_first_capture name t hseq]
  · have e1 : whisperCachingHook name t1 [] = .ok [(name, trimWidth 50 t1)] :=
      whisperHook_first_capture name t1 (le_of_eq (rect_seqLen h1 hb))
    have e1' : whisperCachingHook name t1 [] = .ok [(name, t1)] := by
      rw [e1, trim_eq_of_rect 50 h1 hw]
    have e2 : whisperCachingHook name t2 [(name, t1)] =
        .ok [(name, ⟨List.zipWith (fun x y => x ++ y) t1.data t2.data⟩)] :=
      whisperHook_subsequent_capture name t1 t2 hb le_rfl h1 h2
    have e3 : whisperCachingHook name t3
        [(name, ⟨List.zipWith (fun x y => x ++ y) t1.data t2.data⟩)] =
        .ok [(name, ⟨List.zipWith (fun x y => x ++ y)
          (List.zipWith (fun x y => x ++ y) t1.data t2.data) t3.data⟩)] :=
      whisperHook_subsequent_capture name _ t3 hb (by omega) h12 h3
    simp only [runEvents, hatt, if_true, e1', e2, e3]

/-- Claim C5 (witness): the amended assembly theorem applied to three
concrete [1, 1, 1] decoder captures. -/
theorem decoder_concat_assembles_witness :
    runEvents whisperCachingHook [(0, exDecName)]
        [(exDecName, exT1a), (exDecName, exT1b), (exDecName, exT1c)] [] =
      .ok [(exDecName, ⟨List.zipWith (fun x y => x ++ y)
        (List.zipWith (fun x y => x ++ y) exT1a.data exT1b.data) exT1c.data⟩)]
    ∧ T3.rect ⟨List.zipWith (fun x y => x ++ y)
        (List.zipWith (fun x y => x ++ y) exT1a.data exT1b.data) exT1c.data⟩ 1 3 1 :=
  ⟨(decoder_concat_assembles exDecName 1 1 exT1a exT1b exT1c [(0, exDecName)]
      (by decide) (by decide) (by decide) (by decide) (by decide) (by decide)).2.1,
    (decoder_concat_assembles exDecName 1 1 exT1a exT1b exT1c [(0, exDecName)]
      (by decide) (by decide) (by decide) (by decide) (by decide) (by decide)).2.2⟩

/-! Helper lemmas about column normalization. -/

theorem normalized_col_sumsq {act nd : Nat} (W : Matrix (Fin act) (Fin nd) ℝ)
    (j : Fin nd) (h : ∑ i, W i j ^ 2 ≠ 0) :
    ∑ i, (normalizeCols W i j) ^ 2 = 1 := by
  have hnn : 0 ≤ ∑ i, W i j ^ 2 := Finset.sum_nonneg (fun i _ => sq_nonneg _)
  unfold normalizeCols colNorm
  simp only [div_pow]
  rw [← Finset.sum_div, Real.sq_sqrt hnn, div_self h]

theorem col_sumsq_pos {act nd : Nat} (W : Matrix (Fin act) (Fin nd) ℝ)
    (j : Fin nd) (i0 : Fin act) (h : W i0 j ≠ 0) : 0 < ∑ i, W i j ^ 2 :=
  Finset.sum_pos' (fun i _ => sq_nonneg _) ⟨i0, Finset.mem_univ _, by positivity⟩

theorem normalizeCols_idem {act nd : Nat} (W : Matrix (Fin act) (Fin nd) ℝ) :
    normalizeCols (normalizeCols W) = normalizeCols W := by
  funext i j
  by_cases h : ∑ i2, W i2 j ^ 2 = 0
  · have hz : ∀ i2, W i2 j = 0 := by
      intro i2
      have h2 := (Finset.sum_eq_zero_iff_of_nonneg
        (fun i3 _ => sq_nonneg (W i3 j))).mp h i2 (Finset.mem_univ _)
      exact (pow_eq_zero_iff (by norm_num)).mp h2
    have hzn : normalizeCols W i j = 0 := by
      unfold normalizeCols
      rw [hz i, zero_div]
    show normalizeCols W i j / colNorm (normalizeCols W) j = normalizeCols W i j
    rw [hzn, zero_div]
  · have hsum : ∑ i2, (normalizeCols W i2 j) ^ 2 = 1 := normalized_col_sumsq W j h
    show normalizeCols W i j / colNorm (normalizeCols W) j = normalizeCols W i j
    unfold colNorm
    rw [hsum, Real.sqrt_one, div_one]

/-- Claim C1 (counterexample): on a weight matrix with an all-zero dictionary
column, encode leaves the column zero — it is not renormalized to unit L2
norm, so encode does not renormalize every decoder column. -/
theorem encode_zero_column_not_unit :
    (encodeL1 exW0 exBias0 exX0).1 = exW0
    ∧ ∑ i, ((encodeL1 exW0 exBias0 exX0).1 i 0) ^ 2 ≠ 1 := by
  have hW : (encodeL1 exW0 exBias0 exX0).1 = exW0 := by
    funext i j
    show normalizeCols exW0 i j = exW0 i j
    unfold normalizeCols exW0
    simp
  refine ⟨hW, ?_⟩
  rw [hW]
  unfold exW0
  norm_num

/-- Claim C1 (amended): every encode call renormalizes each decoder column
that is nonzero to unit L2 norm before computing the latent code (an all-zero
column stays zero), and the normalization is idempotent: a second encode call
with no intervening weight changes leaves the decoder weights unchanged, and
the latent code is computed from the renormalized weights. -/
theorem encode_normalizes_and_idempotent {act nd bsz seq bsz2 seq2 : Nat}
    (W : Matrix (Fin act) (Fin nd) ℝ) (bias bias2 : Fin nd → ℝ)
    (x : Batch bsz seq act) (x2 : Batch bsz2 seq2 act) :
    (∀ j : Fin nd, (∃ i, W i j ≠ 0) → ∑ i, ((encodeL1 W bias x).1 i j) ^ 2 = 1)
    ∧ (encodeL1 (encodeL1 W bias x).1 bias2 x2).1 = (encodeL1 W bias x).1
    ∧ (encodeL1 W bias x).2 = fun p s j =>
        relu ((∑ i, x p s i * (encodeL1 W bias x).1 i j) + bias j) := by
  refine ⟨?_, ?_, rfl⟩
  · rintro j ⟨i0, hi0⟩
    exact normalized_col_sumsq W j (ne_of_gt (col_sumsq_pos W j i0 hi0))
  · show normalizeCols (normalizeCols W) = normalizeCols W
    exact normalizeCols_idem W

/-- Claim C1 (witness): the amended theorem applied to a concrete nonzero
1 × 1 weight. -/
theorem encode_normalizes_and_idempotent_witness :
    (∑ i, ((encodeL1 exW1 exBias0 exX0).1 i 0) ^ 2 = 1)
    ∧ (encodeL1 (encodeL1 exW1 exBias0 exX0).1 exBias0 exX0).1 =
        (encodeL1 exW1 exBias0 exX0).1 :=
  ⟨(encode_normalizes_and_idempotent exW1 exBias0 exBias0 exX0 exX0).1 0
      ⟨0, one_ne_zero⟩,
    (encode_normalizes_and_idempotent exW1 exBias0 exBias0 exX0 exX0).2.1⟩

/-- The source's masked mean-squared error coincides with the spec's
formulation as an indicator sum over the positions whose target is not the
sentinel. -/
theorem mse_eq_spec {bsz seq act : Nat} (input target : Batch bsz seq act) (c : ℝ) :
    mse_loss_mean input target c = specMaskedMSE input target c := by
  unfold mse_loss_mean specMaskedMSE
  congr 1
  · rw [Finset.sum_filter]
    apply Finset.sum_congr rfl
    intro t _
    by_cases h : target t.1 t.2.1 t.2.2 = c
    · simp [h]
    · simp [h]

/-- Claim C6: for every input, forward's sparsity loss is the mean over
examples and positions of the L1 norm of the latent code across the feature
axis, and its reconstruction loss is recon_alpha times the mean squared error
between reconstruction and input taken only over positions whose target does
not equal the ignore sentinel -1. -/
theorem forward_loss_formulas {act nd bsz seq : Nat} (recon_alpha : ℝ)
    (W : Matrix (Fin act) (Fin nd) ℝ) (bias : Fin nd → ℝ) (x : Batch bsz seq act) :
    (forwardL1 recon_alpha W bias x).l1_loss =
      specSparsityLoss (forwardL1 recon_alpha W bias x).latent
    ∧ (forwardL1 recon_alpha W bias x).reconstruction_loss =
      recon_alpha * specMaskedMSE (forwardL1 recon_alpha W bias x).sae_out x (-1) := by
  constructor
  · show torchMean2 (torchNorm1dim2 (forwardL1 recon_alpha W bias x).latent) =
      specSparsityLoss (forwardL1 recon_alpha W bias x).latent
    unfold torchMean2 torchNorm1dim2 specSparsityLoss
    rw [div_eq_mul_inv, one_div]
    exact mul_comm _ _
  · show recon_alpha * mse_loss_mean (forwardL1 recon_alpha W bias x).sae_out x (-1) =
      recon_alpha * specMaskedMSE (forwardL1 recon_alpha W bias x).sae_out x (-1)
    rw [mse_eq_spec]

/-- Claim C10 (witness): the amended theorem applied to the one-file store
with subset_size 1. -/
theorem mm_subset_truncation_witness :
    exStore.metadata.filenames = exMetadata.filenames.take 1
    ∧ exStore.metadata.tensor_shapes = exMetadata.tensor_shapes.take 1
    ∧ exStore.mmap = [exRow12].take 1
    ∧ exStore.metadata.filenames.length = exStore.metadata.tensor_shapes.length
    ∧ exStore.metadata.tensor_shapes.length = exStore.mmap.length
    ∧ mmDatasetLen exStore = min 1 exMetadata.filenames.length :=
  mm_subset_truncation exMetadata [exRow12] 1 exStore rfl rfl (by decide)

end Freud
